import Mathlib

/-!
Verification of the OpenAi-Balance gateway core against its specification.

The Python source is shallowly embedded: each manager's mutable state becomes
a structure, every method becomes a pure function from the old state (plus the
method's arguments) to its result and the new state.  Python dictionaries are
modelled as association lists with at most one entry per key (exactly the
observable behaviour of a `dict`); `itertools.cycle` is modelled by the key
list plus a natural-number cursor taken modulo the list length.
-/

/-! ### Association-list helpers (model of Python `dict`)

`lookupD m k d` is `m.get(k, d)`; `containsKey m k` is `k in m`;
`setCount m k v` is `m[k] = v` restricted to keys already present (every call
site in the source guards the assignment with a membership test or starts
from a dict that already contains the key); `incCount m k` is `m[k] += 1`;
`eraseEntry m k` is `del m[k]`.
-/

def lookupD (m : List (String × Nat)) (k : String) (d : Nat) : Nat :=
  match m.find? (fun p => p.1 == k) with
  | some p => p.2
  | none => d

def lookupVal? (m : List (String × String)) (k : String) : Option String :=
  (m.find? (fun p => p.1 == k)).map (fun p => p.2)

def containsKey (m : List (String × Nat)) (k : String) : Bool :=
  (m.find? (fun p => p.1 == k)).isSome

def setCount (m : List (String × Nat)) (k : String) (v : Nat) : List (String × Nat) :=
  m.map (fun p => if p.1 == k then (p.1, v) else p)

def incCount (m : List (String × Nat)) (k : String) : List (String × Nat) :=
  m.map (fun p => if p.1 == k then (p.1, p.2 + 1) else p)

def setCountOrInsert (m : List (String × Nat)) (k : String) (v : Nat) : List (String × Nat) :=
  if containsKey m k then setCount m k v else m ++ [(k, v)]

def eraseEntry (m : List (String × Nat)) (k : String) : List (String × Nat) :=
  m.filter (fun p => p.1 ≠ k)

def setBinding (m : List (String × String)) (k v : String) : List (String × String) :=
  if (m.find? (fun p => p.1 == k)).isSome then
    m.map (fun p => if p.1 == k then (p.1, v) else p)
  else m ++ [(k, v)]

def eraseBinding (m : List (String × String)) (k : String) : List (String × String) :=
  m.filter (fun p => p.1 ≠ k)

/-! ### KeyManager (src/app/service/key/key_manager.py)

State of `class KeyManager`: the ordered key list `api_keys`, the round-robin
iterator `key_cycle` (modelled by `cursor`: the next key dispensed is
`api_keys[cursor % len]`), the failure-count dict and the `MAX_FAILURES`
threshold.  `__init__` builds `{key: 0 for key in api_keys}`, which keeps one
entry per distinct key.
-/

structure KeyManager where
  api_keys : List String
  cursor : Nat
  key_failure_counts : List (String × Nat)
  MAX_FAILURES : Nat
deriving Repr, DecidableEq

def KeyManager.init (api_keys : List String) (max_failures : Nat) : KeyManager :=
  { api_keys := api_keys
    cursor := 0
    key_failure_counts := api_keys.dedup.map (fun k => (k, 0))
    MAX_FAILURES := max_failures }

/-- `get_next_key`: dispense the key at the cycle position and advance the
cycle.  (`next(cycle([]))` would raise; every caller in the source guards the
empty pool first, the model returns `""` there.) -/
def KeyManager.get_next_key (km : KeyManager) : String × KeyManager :=
  if km.api_keys.isEmpty then ("", km)
  else (km.api_keys.getD (km.cursor % km.api_keys.length) "",
        { km with cursor := km.cursor + 1 })

/-- `is_key_valid`: `key_failure_counts.get(key, 0) < MAX_FAILURES`. -/
def KeyManager.is_key_valid (km : KeyManager) (key : String) : Bool :=
  lookupD km.key_failure_counts key 0 < km.MAX_FAILURES

/-- The `while True` loop of `get_next_working_key`: return `current` if it is
valid, otherwise advance the cycle, stopping when the dispensed key equals
`initial` (string comparison, exactly as `current_key == initial_key`).
The loop needs at most `len(api_keys)` iterations: the n-th advance from the
position that dispensed `initial` re-dispenses the same list slot, so the
fuel `km.api_keys.length` passed by `get_next_working_key` is never
exhausted; the fuel-0 branch is unreachable for a non-empty pool. -/
def gnwkLoop (initial : String) : Nat → String → KeyManager → String × KeyManager
  | 0, current, km => (current, km)
  | fuel + 1, current, km =>
    if km.is_key_valid current then (current, km)
    else
      let step := km.get_next_key
      if step.1 = initial then (step.1, step.2)
      else gnwkLoop initial fuel step.1 step.2

/-- `get_next_working_key`: empty pool returns `""`; otherwise dispense
`initial_key` from the cycle and run the scan loop starting at it. -/
def KeyManager.get_next_working_key (km : KeyManager) : String × KeyManager :=
  if km.api_keys.isEmpty then ("", km)
  else
    let first := km.get_next_key
    gnwkLoop first.1 km.api_keys.length first.1 first.2

/-- `handle_api_failure(api_key, retries)`: increment the key's count when the
key is present in the dict (no cap is applied in the source); then, if
`retries < settings.MAX_RETRIES`, return `get_next_working_key()`, else
return the empty string.  `settings_max_retries` stands for the global
`settings.MAX_RETRIES` read at call time. -/
def KeyManager.handle_api_failure (km : KeyManager) (api_key : String)
    (retries settings_max_retries : Nat) : String × KeyManager :=
  let km1 :=
    if containsKey km.key_failure_counts api_key then
      { km with key_failure_counts := incCount km.key_failure_counts api_key }
    else km
  if retries < settings_max_retries then km1.get_next_working_key
  else ("", km1)

/-- `get_fail_count`: `key_failure_counts.get(key, 0)`. -/
def KeyManager.get_fail_count (km : KeyManager) (key : String) : Nat :=
  lookupD km.key_failure_counts key 0

/-- `get_first_valid_key`: first key of `api_keys` (config order) whose count
is below the threshold; fall back to `api_keys[0]` when none is valid, and to
`""` on an empty pool. -/
def KeyManager.get_first_valid_key (km : KeyManager) : String :=
  match km.api_keys.find? (fun key => lookupD km.key_failure_counts key 0 < km.MAX_FAILURES) with
  | some key => key
  | none =>
    match km.api_keys with
    | [] => ""
    | k :: _ => k

/-- `reset_key_failure_count`: zero the count when the key exists. -/
def KeyManager.reset_key_failure_count (km : KeyManager) (key : String) : Bool × KeyManager :=
  if containsKey km.key_failure_counts key then
    (true, { km with key_failure_counts := setCount km.key_failure_counts key 0 })
  else (false, km)

/-- The per-key failure branch of `check_failed_keys`
(src/app/scheduler/scheduled_tasks.py, lines 79-92): on a failed
verification the scheduler increments the key's count only while it is
strictly below `MAX_FAILURES`. -/
def checkFailedKeysIncrement (km : KeyManager) (key : String) : KeyManager :=
  if containsKey km.key_failure_counts key ∧
      lookupD km.key_failure_counts key 0 < km.MAX_FAILURES then
    { km with key_failure_counts := incCount km.key_failure_counts key }
  else km

/-! ### Reload (src/app/service/provider/provider_key_manager.py, lines 168-210,
and src/app/service/key/key_manager.py, lines 285-295)

`reload_providers` rebuilds, for each enabled provider config with a
non-empty key list, a fresh `KeyManager(config.api_keys)` (all counts zero),
sets its threshold to `config.max_failures`, and then runs

    for key in manager.api_keys:
        if key in old_counts:
            manager.key_failure_counts[key] = old_counts[key]

against the counts preserved from the provider's previous manager.
`restoreCountsFold` is that loop; `reloadProviderManager` is the whole
per-provider rebuild.
-/

def restoreCountsFold (keys : List String) (old_counts : List (String × Nat))
    (m : List (String × Nat)) : List (String × Nat) :=
  keys.foldl
    (fun acc key =>
      if containsKey old_counts key then setCount acc key (lookupD old_counts key 0)
      else acc)
    m

def reloadProviderManager (old_counts : List (String × Nat))
    (new_api_keys : List String) (max_failures : Nat) : KeyManager :=
  let manager := KeyManager.init new_api_keys max_failures
  { manager with
      key_failure_counts := restoreCountsFold manager.api_keys old_counts manager.key_failure_counts }

/-- The failure-count inheritance of `get_key_manager_instance` (singleton
re-creation after `reset_key_manager_instance`): build `{key: 0 for key in
api_keys}` and copy over the preserved count of every key that is still
present. -/
def inheritFailureCounts (new_api_keys : List String)
    (preserved : List (String × Nat)) : List (String × Nat) :=
  preserved.foldl
    (fun acc p => if containsKey acc p.1 then setCount acc p.1 p.2 else acc)
    (new_api_keys.dedup.map (fun k => (k, 0)))

/-! ### ProxyManager (src/app/service/proxy/proxy_manager.py)

State of `class ProxyManager`: the ordered proxy list, the failure-count
dict, the disabled set (a list without duplicates: `setInsert` adds only
absent elements, as `set.add`), the key→proxy binding dict and the
`_last_check_time` dict.  `random.choice` of the non-hash branch and Python's
`hash` are passed in as the functions `pick` and `hashFn`; both are fixed
within a process lifetime.
-/

def setInsert (s : List String) (x : String) : List String :=
  if s.contains x then s else s ++ [x]

structure ProxyManager where
  proxies : List String
  proxy_failure_counts : List (String × Nat)
  disabled_proxies : List String
  key_proxy_bindings : List (String × String)
  MAX_FAILURES : Nat
  last_check_time : List (String × Nat)
deriving Repr, DecidableEq

def ProxyManager.init (proxies : List String) (max_failures : Nat) : ProxyManager :=
  { proxies := proxies
    proxy_failure_counts := proxies.dedup.map (fun p => (p, 0))
    disabled_proxies := []
    key_proxy_bindings := []
    MAX_FAILURES := max_failures
    last_check_time := [] }

/-- `get_available_proxies`: proxies not in the disabled set. -/
def ProxyManager.get_available_proxies (pm : ProxyManager) : List String :=
  pm.proxies.filter (fun p => ¬ pm.disabled_proxies.contains p)

/-- `get_proxy_for_key`: no proxies → `None`; all proxies disabled →
`proxies[0]` as a fallback (no binding written); consistency-hash mode →
honour an existing binding whose proxy is still available, otherwise drop the
stale binding, pick `available[hash(api_key) % len(available)]` and record
it; random mode → `pick available`. -/
def ProxyManager.get_proxy_for_key (pm : ProxyManager) (hashFn : String → Nat)
    (use_consistency_hash : Bool) (pick : List String → String)
    (api_key : String) : Option String × ProxyManager :=
  if pm.proxies.isEmpty then (none, pm)
  else
    let available := pm.get_available_proxies
    if available.isEmpty then (pm.proxies.head?, pm)
    else if use_consistency_hash then
      match lookupVal? pm.key_proxy_bindings api_key with
      | some bound =>
        if available.contains bound then (some bound, pm)
        else
          let bindings1 := eraseBinding pm.key_proxy_bindings api_key
          let proxy := available.getD (hashFn api_key % available.length) ""
          (some proxy, { pm with key_proxy_bindings := setBinding bindings1 api_key proxy })
      | none =>
        let proxy := available.getD (hashFn api_key % available.length) ""
        (some proxy, { pm with key_proxy_bindings := setBinding pm.key_proxy_bindings api_key proxy })
    else (some (pick available), pm)

/-- `record_proxy_failure`: empty or unknown proxy → `False` and no change;
otherwise increment the count, and when the new count reaches `MAX_FAILURES`
add the proxy to the disabled set, delete every binding whose value is this
proxy, and return `True` (the source returns `True` on every call whose
post-increment count is at or above the threshold). -/
def ProxyManager.record_proxy_failure (pm : ProxyManager) (proxy : String) :
    Bool × ProxyManager :=
  if proxy = "" ∨ ¬ containsKey pm.proxy_failure_counts proxy then (false, pm)
  else
    let counts := incCount pm.proxy_failure_counts proxy
    if pm.MAX_FAILURES ≤ lookupD counts proxy 0 then
      (true,
        { pm with
            proxy_failure_counts := counts
            disabled_proxies := setInsert pm.disabled_proxies proxy
            key_proxy_bindings := pm.key_proxy_bindings.filter (fun p => p.2 ≠ proxy) })
    else (false, { pm with proxy_failure_counts := counts })

/-- `record_proxy_success`: reset the count to zero when the proxy is known
and its count is positive. -/
def ProxyManager.record_proxy_success (pm : ProxyManager) (proxy : String) : ProxyManager :=
  if proxy = "" ∨ ¬ containsKey pm.proxy_failure_counts proxy then pm
  else if 0 < lookupD pm.proxy_failure_counts proxy 0 then
    { pm with proxy_failure_counts := setCount pm.proxy_failure_counts proxy 0 }
  else pm

/-- `reset_proxy`: zero the count when present and drop the proxy from the
disabled set. -/
def ProxyManager.reset_proxy (pm : ProxyManager) (proxy : String) : ProxyManager :=
  let counts :=
    if containsKey pm.proxy_failure_counts proxy then
      setCount pm.proxy_failure_counts proxy 0
    else pm.proxy_failure_counts
  { pm with
      proxy_failure_counts := counts
      disabled_proxies := pm.disabled_proxies.filter (fun d => d ≠ proxy) }

/-- `reset_all_proxies`: zero the count of every listed proxy, clear the
disabled set and all bindings. -/
def ProxyManager.reset_all_proxies (pm : ProxyManager) : ProxyManager :=
  { pm with
      proxy_failure_counts :=
        pm.proxies.foldl (fun acc p => setCountOrInsert acc p 0) pm.proxy_failure_counts
      disabled_proxies := []
      key_proxy_bindings := [] }

/-- `disable_proxy` (manual): for a listed proxy, add it to the disabled set
and delete every binding whose value is this proxy. -/
def ProxyManager.disable_proxy (pm : ProxyManager) (proxy : String) : ProxyManager :=
  if pm.proxies.contains proxy then
    { pm with
        disabled_proxies := setInsert pm.disabled_proxies proxy
        key_proxy_bindings := pm.key_proxy_bindings.filter (fun p => p.2 ≠ proxy) }
  else pm

/-- `enable_proxy` (manual): for a listed proxy, drop it from the disabled
set and zero its count. -/
def ProxyManager.enable_proxy (pm : ProxyManager) (proxy : String) : ProxyManager :=
  if pm.proxies.contains proxy then
    { pm with
        disabled_proxies := pm.disabled_proxies.filter (fun d => d ≠ proxy)
        proxy_failure_counts := setCountOrInsert pm.proxy_failure_counts proxy 0 }
  else pm

/-- `reload_proxies(new_proxies)`: proxies only in the new list get a zero
count; proxies only in the old list lose their count, disabled mark,
last-check time and every binding pointing to them; surviving proxies keep
their state; the list is replaced. -/
def ProxyManager.reload_proxies (pm : ProxyManager) (new_proxies : List String) : ProxyManager :=
  let inNew := fun p => new_proxies.contains p
  let inOld := fun p => pm.proxies.contains p
  let removed := fun p => inOld p ∧ ¬ inNew p
  { pm with
      proxies := new_proxies
      proxy_failure_counts :=
        (pm.proxy_failure_counts.filter (fun p => ¬ removed p.1)) ++
          ((new_proxies.dedup.filter (fun p => ¬ inOld p)).map (fun p => (p, 0)))
      disabled_proxies := pm.disabled_proxies.filter (fun d => ¬ removed d)
      last_check_time := pm.last_check_time.filter (fun p => ¬ removed p.1)
      key_proxy_bindings := pm.key_proxy_bindings.filter (fun b => ¬ removed b.2) }

/-- `update_last_check_time`: stamp the proxy with the current time. -/
def ProxyManager.update_last_check_time (pm : ProxyManager) (proxy : String) (now : Nat) :
    ProxyManager :=
  { pm with
      last_check_time :=
        if containsKey pm.last_check_time proxy then setCount pm.last_check_time proxy now
        else pm.last_check_time ++ [(proxy, now)] }

/-- `unbind_key_from_proxy`: delete the key's binding when present. -/
def ProxyManager.unbind_key_from_proxy (pm : ProxyManager) (api_key : String) : ProxyManager :=
  { pm with key_proxy_bindings := eraseBinding pm.key_proxy_bindings api_key }

/-- One public `ProxyManager` operation, as a step relation over states: this
enumerates every method of the class that mutates state. -/
inductive PMStep : ProxyManager → ProxyManager → Prop
  | reload (pm : ProxyManager) (new_proxies : List String) :
      PMStep pm (pm.reload_proxies new_proxies)
  | getProxyForKey (pm : ProxyManager) (hashFn : String → Nat)
      (use_hash : Bool) (pick : List String → String) (api_key : String) :
      PMStep pm (pm.get_proxy_for_key hashFn use_hash pick api_key).2
  | recordFailure (pm : ProxyManager) (proxy : String) :
      PMStep pm (pm.record_proxy_failure proxy).2
  | recordSuccess (pm : ProxyManager) (proxy : String) :
      PMStep pm (pm.record_proxy_success proxy)
  | resetProxy (pm : ProxyManager) (proxy : String) :
      PMStep pm (pm.reset_proxy proxy)
  | resetAll (pm : ProxyManager) :
      PMStep pm pm.reset_all_proxies
  | disable (pm : ProxyManager) (proxy : String) :
      PMStep pm (pm.disable_proxy proxy)
  | enable (pm : ProxyManager) (proxy : String) :
      PMStep pm (pm.enable_proxy proxy)
  | updateLastCheck (pm : ProxyManager) (proxy : String) (now : Nat) :
      PMStep pm (pm.update_last_check_time proxy now)
  | unbindKey (pm : ProxyManager) (api_key : String) :
      PMStep pm (pm.unbind_key_from_proxy api_key)

/-- The binding invariant of the spec: no key binding points to a disabled
proxy. -/
def BindingsAvoidDisabled (pm : ProxyManager) : Prop :=
  ∀ x ∈ pm.disabled_proxies, ∀ b ∈ pm.key_proxy_bindings, b.2 ≠ x

instance (pm : ProxyManager) : Decidable (BindingsAvoidDisabled pm) := by
  unfold BindingsAvoidDisabled; infer_instance

/-! ### Streaming retry engine
(src/app/service/provider/provider_service.py, `_handle_stream_completion`)

One upstream attempt is summarised by what the HTTP layer does:

* `httpError code body` — the response status is not 200; the body is read
  and `Exception(status_code, body)` is raised before any line is yielded;
* `streamError lines code msg` — the response is 200, `aiter_lines` delivers
  `lines` (each non-empty one is yielded with a newline appended) and then
  raises mid-stream, caught as `Exception(code, msg)`;
* `success lines` — the response is 200 and `aiter_lines` delivers `lines`
  to the end.

The generator is the `while retries < max_retries` loop: each iteration
consumes the next attempt of the script; on an exception the `except` block
increments `retries`, calls `key_manager.handle_api_failure(current_key,
retries)`, switches `final_api_key` when a different non-empty key comes
back, re-raises when no key comes back or when `retries >= max_retries`, and
otherwise loops.  `config_max_retries` is `self.config.max_retries` (the
loop bound) and `settings_max_retries` is the global `settings.MAX_RETRIES`
read inside `handle_api_failure`.  The outcome records the concatenation of
everything yielded, the exception that escapes to the consumer (if any), the
final key-manager state and how many upstream attempts were issued.  A
script shorter than the run needs is never consumed further: the `[]` case
stands for "no more upstream behaviour is prescribed" and ends the run.
-/

inductive AttemptResult where
  | httpError (code : Nat) (body : String)
  | streamError (lines : List String) (code : Nat) (msg : String)
  | success (lines : List String)
deriving Repr, DecidableEq

/-- The lines an attempt delivers to the consumer: every non-empty line
(`if line:`) with a newline appended (`yield f"{line}\n"`). -/
def attemptYield : AttemptResult → List String
  | .httpError _ _ => []
  | .streamError lines _ _ => (lines.filter (fun l => l ≠ "")).map (fun l => l ++ "\n")
  | .success lines => (lines.filter (fun l => l ≠ "")).map (fun l => l ++ "\n")

structure StreamOutcome where
  yielded : List String
  error : Option (Nat × String)
  km : KeyManager
  attemptsUsed : Nat
deriving Repr, DecidableEq

def streamLoop (config_max_retries settings_max_retries : Nat) :
    List AttemptResult → KeyManager → String → Nat → StreamOutcome
  | [], km, _, _ => { yielded := [], error := none, km := km, attemptsUsed := 0 }
  | a :: rest, km, final_api_key, retries =>
    if retries < config_max_retries then
      match a with
      | .success _ =>
        { yielded := attemptYield a, error := none, km := km, attemptsUsed := 1 }
      | .httpError code msg =>
        let retries1 := retries + 1
        let hf := km.handle_api_failure final_api_key retries1 settings_max_retries
        if hf.1 = "" then
          { yielded := [], error := some (code, msg), km := hf.2, attemptsUsed := 1 }
        else if config_max_retries ≤ retries1 then
          { yielded := [], error := some (code, msg), km := hf.2, attemptsUsed := 1 }
        else
          let key1 := if hf.1 ≠ final_api_key then hf.1 else final_api_key
          let out := streamLoop config_max_retries settings_max_retries rest hf.2 key1 retries1
          { out with attemptsUsed := out.attemptsUsed + 1 }
      | .streamError _ code msg =>
        let retries1 := retries + 1
        let hf := km.handle_api_failure final_api_key retries1 settings_max_retries
        if hf.1 = "" then
          { yielded := attemptYield a, error := some (code, msg), km := hf.2, attemptsUsed := 1 }
        else if config_max_retries ≤ retries1 then
          { yielded := attemptYield a, error := some (code, msg), km := hf.2, attemptsUsed := 1 }
        else
          let key1 := if hf.1 ≠ final_api_key then hf.1 else final_api_key
          let out := streamLoop config_max_retries settings_max_retries rest hf.2 key1 retries1
          { out with yielded := attemptYield a ++ out.yielded, attemptsUsed := out.attemptsUsed + 1 }
    else { yielded := [], error := none, km := km, attemptsUsed := 0 }

/-- `_handle_stream_completion(model, payload, api_key, ...)` run against the
attempt script: the loop starts with `retries = 0` and
`final_api_key = api_key`. -/
def handle_stream_completion (config_max_retries settings_max_retries : Nat)
    (api_key : String) (km : KeyManager) (attempts : List AttemptResult) : StreamOutcome :=
  streamLoop config_max_retries settings_max_retries attempts km api_key 0

/-! ### Common stream handler of the routers
(src/app/router/provider_routes.py `_handle_chat_completion`, lines 332-378,
and src/app/router/openai_routes.py `chat_completion`, lines 100-126; the two
stream branches are textually identical)

With `request.stream` set, the router pulls the first chunk of the service
generator.  Over a generator outcome `(yielded, error)` the first
`__anext__` raises the recorded exception when nothing was yielded and an
error escaped; raises `StopAsyncIteration` when nothing was yielded and the
generator finished (the router then wraps the exhausted generator in an
empty `text/event-stream` response); and returns the first yielded chunk
otherwise.  A first chunk starting with `data:` gives a `text/event-stream`
response whose body is the first chunk followed by the remaining chunks; any
other first chunk falls off the end of the function, which returns `None`
(`emptyBody`).  The non-stream branch returns the upstream object unchanged
(`passthrough`). -/

/-- `first_chunk.startswith("data:")`, modelled over the character list of
the string (Lean's own `String.startsWith` is equivalent but is defined by
well-founded recursion on byte positions and does not reduce). -/
def strStartsWith (s pre : String) : Bool :=
  List.isPrefixOf pre.data s.data

inductive RouterResponse where
  | streamResponse (body : List String)
  | jsonError (code : Nat) (message : String)
  | passthrough (obj : String)
  | emptyBody
deriving Repr, DecidableEq

def routeStreamResponse (yielded : List String) (error : Option (Nat × String)) :
    RouterResponse :=
  match yielded with
  | [] =>
    match error with
    | some e => .jsonError e.1 e.2
    | none => .streamResponse []
  | first :: rest =>
    if strStartsWith first "data:" then .streamResponse (first :: rest)
    else .emptyBody

/-! ### `get_models` key selection
(src/app/service/provider/provider_service.py, lines 106-115)

`get_models` uses the caller-supplied key when truthy, else the configured
`model_request_key` when truthy, else `key_manager.get_first_valid_key()`.
Python's `not api_key` is true for both `None` and `""`; both are modelled
by `""`. -/
def getModelsKey (api_key model_request_key : String) (km : KeyManager) : String :=
  if api_key ≠ "" then api_key
  else if model_request_key ≠ "" then model_request_key
  else km.get_first_valid_key

/-! ### Concrete scenarios used by witnesses and counterexamples -/

/-- A two-key pool with threshold 1 in which both keys have failed once
(via `handle_api_failure` with the retry budget exhausted, so the cursor is
untouched) and the round-robin cursor was then advanced by one `get_next_key`
call: the next key the cycle dispenses is `"k2"`. -/
def kmAllInvalid : KeyManager :=
  ((((KeyManager.init ["k1", "k2"] 1).handle_api_failure "k1" 5 0).2.handle_api_failure
      "k2" 5 0).2.get_next_key).2

/-- A fresh two-proxy pool with threshold 2, used for consistency-hash
scenarios. -/
def pmTwo : ProxyManager := ProxyManager.init ["p1", "p2"] 2

/-- A concrete stand-in for Python's `hash` (any fixed function works: the
source only needs stability within the process lifetime). -/
def hashLen : String → Nat := fun s => s.length

/-- A concrete stand-in for `random.choice` (never consulted in hash mode). -/
def pickHead : List String → String := fun l => l.getD 0 ""

/-! ### Association-list lemmas -/

theorem lookupD_cons_pos {q : String × Nat} {t : List (String × Nat)} {k : String} {d : Nat}
    (h : (q.1 == k) = true) : lookupD (q :: t) k d = q.2 := by
  unfold lookupD
  rw [List.find?_cons_of_pos t h]

theorem lookupD_cons_neg {q : String × Nat} {t : List (String × Nat)} {k : String} {d : Nat}
    (h : (q.1 == k) = false) : lookupD (q :: t) k d = lookupD t k d := by
  unfold lookupD
  rw [List.find?_cons_of_neg t (by simp [h])]

theorem containsKey_cons_pos {q : String × Nat} {t : List (String × Nat)} {k : String}
    (h : (q.1 == k) = true) : containsKey (q :: t) k = true := by
  unfold containsKey
  rw [List.find?_cons_of_pos t h]
  rfl

theorem containsKey_cons_neg {q : String × Nat} {t : List (String × Nat)} {k : String}
    (h : (q.1 == k) = false) : containsKey (q :: t) k = containsKey t k := by
  unfold containsKey
  rw [List.find?_cons_of_neg t (by simp [h])]

theorem setCount_cons (q : String × Nat) (t : List (String × Nat)) (k : String) (v : Nat) :
    setCount (q :: t) k v = (if q.1 == k then (q.1, v) else q) :: setCount t k v := rfl

theorem incCount_cons (q : String × Nat) (t : List (String × Nat)) (k : String) :
    incCount (q :: t) k = (if q.1 == k then (q.1, q.2 + 1) else q) :: incCount t k := rfl

theorem lookupD_map_zero (l : List String) (k : String) :
    lookupD (l.map (fun x => (x, 0))) k 0 = 0 := by
  induction l with
  | nil => rfl
  | cons a t ih =>
    rw [List.map_cons]
    by_cases h : ((a, 0) : String × Nat).1 == k
    · rw [lookupD_cons_pos h]
    · rw [lookupD_cons_neg (by simpa using h)]
      exact ih

theorem containsKey_map_zero (l : List String) (k : String) :
    containsKey (l.map (fun x => (x, 0))) k = true ↔ k ∈ l := by
  induction l with
  | nil => simp [containsKey, List.find?]
  | cons a t ih =>
    rw [List.map_cons]
    by_cases h : ((a, 0) : String × Nat).1 == k
    · have ha : a = k := by simpa using h
      constructor
      · exact fun _ => List.mem_cons.2 (Or.inl ha.symm)
      · exact fun _ => containsKey_cons_pos h
    · have ha : a ≠ k := by simpa using h
      rw [containsKey_cons_neg (by simpa using h)]
      constructor
      · exact fun h2 => List.mem_cons_of_mem _ (ih.1 h2)
      · intro h2
        rcases List.mem_cons.1 h2 with he | ht
        · exact absurd he.symm ha
        · exact ih.2 ht

theorem containsKey_setCount (m : List (String × Nat)) (k k' : String) (v : Nat) :
    containsKey (setCount m k v) k' = containsKey m k' := by
  induction m with
  | nil => rfl
  | cons q t ih =>
    rw [setCount_cons]
    by_cases h : (q.1 == k)
    · rw [if_pos h]
      by_cases h' : (q.1 == k')
      · rw [containsKey_cons_pos (q := (q.1, v)) h', containsKey_cons_pos h']
      · have hb : ((q.1 == k') = false) := by simpa using h'
        rw [containsKey_cons_neg (q := (q.1, v)) hb, containsKey_cons_neg hb]
        exact ih
    · rw [if_neg h]
      by_cases h' : (q.1 == k')
      · rw [containsKey_cons_pos h', containsKey_cons_pos h']
      · have hb : ((q.1 == k') = false) := by simpa using h'
        rw [containsKey_cons_neg hb, containsKey_cons_neg hb]
        exact ih

theorem lookupD_setCount_self (m : List (String × Nat)) (k : String) (v : Nat)
    (h : containsKey m k = true) : lookupD (setCount m k v) k 0 = v := by
  induction m with
  | nil => exact absurd h (by simp [containsKey, List.find?])
  | cons q t ih =>
    rw [setCount_cons]
    by_cases hk : (q.1 == k)
    · rw [if_pos hk]
      exact lookupD_cons_pos (q := (q.1, v)) hk
    · have hb : ((q.1 == k) = false) := by simpa using hk
      rw [if_neg hk, lookupD_cons_neg hb]
      exact ih (by rwa [containsKey_cons_neg hb] at h)

theorem lookupD_setCount_ne (m : List (String × Nat)) (k k' : String) (v d : Nat)
    (hne : k' ≠ k) : lookupD (setCount m k v) k' d = lookupD m k' d := by
  induction m with
  | nil => rfl
  | cons q t ih =>
    rw [setCount_cons]
    by_cases hk : (q.1 == k)
    · have hq : q.1 = k := by simpa using hk
      have hb : ((q.1 == k') = false) := by
        simp [hq, beq_iff_eq]
        exact fun h2 => hne h2.symm
      rw [if_pos hk, lookupD_cons_neg (q := (q.1, v)) hb, lookupD_cons_neg hb]
      exact ih
    · rw [if_neg hk]
      by_cases h' : (q.1 == k')
      · rw [lookupD_cons_pos h', lookupD_cons_pos h']
      · have hb : ((q.1 == k') = false) := by simpa using h'
        rw [lookupD_cons_neg hb, lookupD_cons_neg hb]
        exact ih

theorem containsKey_incCount (m : List (String × Nat)) (k k' : String) :
    containsKey (incCount m k) k' = containsKey m k' := by
  induction m with
  | nil => rfl
  | cons q t ih =>
    rw [incCount_cons]
    by_cases h : (q.1 == k)
    · rw [if_pos h]
      by_cases h' : (q.1 == k')
      · rw [containsKey_cons_pos (q := (q.1, q.2 + 1)) h', containsKey_cons_pos h']
      · have hb : ((q.1 == k') = false) := by simpa using h'
        rw [containsKey_cons_neg (q := (q.1, q.2 + 1)) hb, containsKey_cons_neg hb]
        exact ih
    · rw [if_neg h]
      by_cases h' : (q.1 == k')
      · rw [containsKey_cons_pos h', containsKey_cons_pos h']
      · have hb : ((q.1 == k') = false) := by simpa using h'
        rw [containsKey_cons_neg hb, containsKey_cons_neg hb]
        exact ih

theorem lookupD_incCount_self (m : List (String × Nat)) (k : String)
    (h : containsKey m k = true) : lookupD (incCount m k) k 0 = lookupD m k 0 + 1 := by
  induction m with
  | nil => exact absurd h (by simp [containsKey, List.find?])
  | cons q t ih =>
    rw [incCount_cons]
    by_cases hk : (q.1 == k)
    · rw [if_pos hk, lookupD_cons_pos (q := (q.1, q.2 + 1)) hk, lookupD_cons_pos hk]
    · have hb : ((q.1 == k) = false) := by simpa using hk
      rw [if_neg hk, lookupD_cons_neg hb, lookupD_cons_neg hb]
      exact ih (by rwa [containsKey_cons_neg hb] at h)

theorem lookupD_incCount_ne (m : List (String × Nat)) (k k' : String) (d : Nat)
    (hne : k' ≠ k) : lookupD (incCount m k) k' d = lookupD m k' d := by
  induction m with
  | nil => rfl
  | cons q t ih =>
    rw [incCount_cons]
    by_cases hk : (q.1 == k)
    · have hq : q.1 = k := by simpa using hk
      have hb : ((q.1 == k') = false) := by
        simp [hq, beq_iff_eq]
        exact fun h2 => hne h2.symm
      rw [if_pos hk, lookupD_cons_neg (q := (q.1, q.2 + 1)) hb, lookupD_cons_neg hb]
      exact ih
    · rw [if_neg hk]
      by_cases h' : (q.1 == k')
      · rw [lookupD_cons_pos h', lookupD_cons_pos h']
      · have hb : ((q.1 == k') = false) := by simpa using h'
        rw [lookupD_cons_neg hb, lookupD_cons_neg hb]
        exact ih

/-! ### KeyManager lemmas -/

theorem get_next_key_fields (km : KeyManager) :
    km.get_next_key.2.api_keys = km.api_keys ∧
    km.get_next_key.2.key_failure_counts = km.key_failure_counts ∧
    km.get_next_key.2.MAX_FAILURES = km.MAX_FAILURES := by
  unfold KeyManager.get_next_key
  split <;> simp

theorem gnwkLoop_fields (initial : String) :
    ∀ (fuel : Nat) (current : String) (km : KeyManager),
    (gnwkLoop initial fuel current km).2.api_keys = km.api_keys ∧
    (gnwkLoop initial fuel current km).2.key_failure_counts = km.key_failure_counts ∧
    (gnwkLoop initial fuel current km).2.MAX_FAILURES = km.MAX_FAILURES
  | 0, current, km => ⟨rfl, rfl, rfl⟩
  | fuel + 1, current, km => by
    unfold gnwkLoop
    split
    · exact ⟨rfl, rfl, rfl⟩
    · dsimp only
      split
      · exact get_next_key_fields km
      · have h1 := gnwkLoop_fields initial fuel km.get_next_key.1 km.get_next_key.2
        have h2 := get_next_key_fields km
        exact ⟨h1.1.trans h2.1, h1.2.1.trans h2.2.1, h1.2.2.trans h2.2.2⟩

theorem get_next_working_key_fields (km : KeyManager) :
    km.get_next_working_key.2.api_keys = km.api_keys ∧
    km.get_next_working_key.2.key_failure_counts = km.key_failure_counts ∧
    km.get_next_working_key.2.MAX_FAILURES = km.MAX_FAILURES := by
  unfold KeyManager.get_next_working_key
  split
  · exact ⟨rfl, rfl, rfl⟩
  · have h1 := gnwkLoop_fields km.get_next_key.1 km.api_keys.length
      km.get_next_key.1 km.get_next_key.2
    have h2 := get_next_key_fields km
    exact ⟨h1.1.trans h2.1, h1.2.1.trans h2.2.1, h1.2.2.trans h2.2.2⟩

theorem handle_api_failure_count_self (km : KeyManager) (key : String)
    (r s : Nat) (h : containsKey km.key_failure_counts key = true) :
    (km.handle_api_failure key r s).2.get_fail_count key = km.get_fail_count key + 1 := by
  unfold KeyManager.handle_api_failure
  simp only [h, if_true]
  split
  · have hfields := get_next_working_key_fields
      { km with key_failure_counts := incCount km.key_failure_counts key }
    unfold KeyManager.get_fail_count
    rw [hfields.2.1]
    exact lookupD_incCount_self km.key_failure_counts key h
  · unfold KeyManager.get_fail_count
    exact lookupD_incCount_self km.key_failure_counts key h

theorem handle_api_failure_count_other (km : KeyManager) (key other : String)
    (r s : Nat) (hne : other ≠ key) :
    (km.handle_api_failure key r s).2.get_fail_count other = km.get_fail_count other := by
  unfold KeyManager.handle_api_failure
  split
  · split
    · have hfields := get_next_working_key_fields
        { km with key_failure_counts := incCount km.key_failure_counts key }
      unfold KeyManager.get_fail_count
      rw [hfields.2.1]
      exact lookupD_incCount_ne km.key_failure_counts key other 0 hne
    · unfold KeyManager.get_fail_count
      exact lookupD_incCount_ne km.key_failure_counts key other 0 hne
  · split
    · have hfields := get_next_working_key_fields km
      unfold KeyManager.get_fail_count
      rw [hfields.2.1]
    · rfl

/-! ### Reload lemmas -/

theorem restoreCountsFold_cons (key : String) (keys : List String)
    (old_counts m : List (String × Nat)) :
    restoreCountsFold (key :: keys) old_counts m =
      restoreCountsFold keys old_counts
        (if containsKey old_counts key then setCount m key (lookupD old_counts key 0) else m) := by
  unfold restoreCountsFold
  rw [List.foldl_cons]

theorem containsKey_restoreCountsFold :
    ∀ (keys : List String) (old_counts m : List (String × Nat)) (k : String),
    containsKey (restoreCountsFold keys old_counts m) k = containsKey m k
  | [], _, _, _ => rfl
  | key :: keys, old_counts, m, k => by
    rw [restoreCountsFold_cons]
    rw [containsKey_restoreCountsFold keys]
    split
    · exact containsKey_setCount m key k _
    · rfl

theorem lookupD_restoreCountsFold_not_mem :
    ∀ (keys : List String) (old_counts m : List (String × Nat)) (k : String),
    k ∉ keys → lookupD (restoreCountsFold keys old_counts m) k 0 = lookupD m k 0
  | [], _, _, _, _ => rfl
  | key :: keys, old_counts, m, k, hk => by
    rw [restoreCountsFold_cons]
    have hk1 : k ≠ key := fun h => hk (h ▸ List.mem_cons_self key keys)
    have hk2 : k ∉ keys := fun h => hk (List.mem_cons_of_mem key h)
    rw [lookupD_restoreCountsFold_not_mem keys _ _ k hk2]
    split
    · exact lookupD_setCount_ne m key k _ 0 hk1
    · rfl

theorem lookupD_restoreCountsFold_not_in_old :
    ∀ (keys : List String) (old_counts m : List (String × Nat)) (k : String),
    containsKey old_counts k = false →
    lookupD (restoreCountsFold keys old_counts m) k 0 = lookupD m k 0
  | [], _, _, _, _ => rfl
  | key :: keys, old_counts, m, k, hold => by
    rw [restoreCountsFold_cons]
    rw [lookupD_restoreCountsFold_not_in_old keys _ _ k hold]
    by_cases hkk : k = key
    · subst hkk
      rw [if_neg (by rw [hold]; exact Bool.false_ne_true)]
    · split
      · exact lookupD_setCount_ne m key k _ 0 hkk
      · rfl

theorem lookupD_restoreCountsFold_mem :
    ∀ (keys : List String) (old_counts m : List (String × Nat)) (k : String),
    k ∈ keys → containsKey old_counts k = true → containsKey m k = true →
    lookupD (restoreCountsFold keys old_counts m) k 0 = lookupD old_counts k 0
  | [], _, _, _, hk, _, _ => absurd hk (List.not_mem_nil _)
  | key :: keys, old_counts, m, k, hk, hold, hm => by
    rw [restoreCountsFold_cons]
    by_cases hmem : k ∈ keys
    · have hm1 : containsKey
          (if containsKey old_counts key then setCount m key (lookupD old_counts key 0) else m)
          k = true := by
        split
        · rw [containsKey_setCount]; exact hm
        · exact hm
      exact lookupD_restoreCountsFold_mem keys old_counts _ k hmem hold hm1
    · have hkk : k = key := by
        rcases List.mem_cons.1 hk with h | h
        · exact h
        · exact absurd h hmem
      subst hkk
      rw [lookupD_restoreCountsFold_not_mem keys _ _ k hmem]
      rw [if_pos hold]
      exact lookupD_setCount_self m k _ hm

/-! ### ProxyManager lemmas -/

theorem strContains_iff_mem {l : List String} {x : String} :
    l.contains x = true ↔ x ∈ l := by
  simp [List.contains, List.elem_iff]

theorem mem_setInsert {s : List String} {x y : String} (h : y ∈ setInsert s x) :
    y ∈ s ∨ y = x := by
  unfold setInsert at h
  split at h
  · exact Or.inl h
  · rcases List.mem_append.1 h with h1 | h1
    · exact Or.inl h1
    · exact Or.inr (List.mem_singleton.1 h1)

theorem mem_setBinding {m : List (String × String)} {k v : String} {b : String × String}
    (h : b ∈ setBinding m k v) : b ∈ m ∨ b.2 = v := by
  unfold setBinding at h
  split at h
  · rcases List.mem_map.1 h with ⟨p, hp, hpe⟩
    by_cases hk : (p.1 == k)
    · right; rw [← hpe]; simp [hk]
    · left; rw [← hpe]; simpa [hk] using hp
  · rcases List.mem_append.1 h with h1 | h1
    · exact Or.inl h1
    · right; rw [List.mem_singleton.1 h1]

theorem lookupVal_cons_pos {q : String × String} {t : List (String × String)} {k : String}
    (h : (q.1 == k) = true) : lookupVal? (q :: t) k = some q.2 := by
  unfold lookupVal?
  rw [List.find?_cons_of_pos t h]
  rfl

theorem lookupVal_cons_neg {q : String × String} {t : List (String × String)} {k : String}
    (h : (q.1 == k) = false) : lookupVal? (q :: t) k = lookupVal? t k := by
  unfold lookupVal?
  rw [List.find?_cons_of_neg t (by simp [h])]

theorem lookupVal?_setBinding_self (m : List (String × String)) (k v : String) :
    lookupVal? (setBinding m k v) k = some v := by
  unfold setBinding
  split
  · rename_i hsome
    induction m with
    | nil => simp at hsome
    | cons p t ih =>
      rw [List.map_cons]
      by_cases hk : (p.1 == k)
      · rw [if_pos hk]
        exact lookupVal_cons_pos (q := (p.1, v)) hk
      · have hb : ((p.1 == k) = false) := by simpa using hk
        rw [if_neg hk, lookupVal_cons_neg hb]
        have hsome2 : (t.find? (fun p => p.1 == k)).isSome = true := by
          rwa [List.find?_cons_of_neg t (by simp [hb])] at hsome
        exact ih hsome2
  · rename_i hnone
    have hnone2 : m.find? (fun p => p.1 == k) = none := by
      cases h : m.find? (fun p => p.1 == k)
      · rfl
      · exact absurd (by rw [h]; rfl) hnone
    unfold lookupVal?
    rw [List.find?_append, hnone2]
    simp [List.find?]

theorem strContains_eq_false_iff {l : List String} {x : String} :
    l.contains x = false ↔ x ∉ l := by
  constructor
  · intro h hc
    rw [strContains_iff_mem.2 hc] at h
    exact absurd h (by simp)
  · intro h
    cases hc : l.contains x
    · rfl
    · exact absurd (strContains_iff_mem.1 hc) h

theorem mem_available_iff {pm : ProxyManager} {p : String} :
    p ∈ pm.get_available_proxies ↔
      p ∈ pm.proxies ∧ pm.disabled_proxies.contains p = false := by
  unfold ProxyManager.get_available_proxies
  simp only [List.mem_filter, decide_eq_true_eq, strContains_eq_false_iff]
  constructor
  · rintro ⟨h1, h2⟩
    exact ⟨h1, fun hc => h2 (strContains_iff_mem.2 hc)⟩
  · rintro ⟨h1, h2⟩
    exact ⟨h1, fun hc => h2 (strContains_iff_mem.1 hc)⟩

theorem getD_mem_of_nonempty {l : List String} (h : l ≠ []) (i : Nat) :
    l.getD (i % l.length) "" ∈ l := by
  have hlen : i % l.length < l.length :=
    Nat.mod_lt _ (List.length_pos.2 h)
  rw [List.getD_eq_getElem?_getD, List.getElem?_eq_getElem hlen]
  exact List.getElem_mem _

theorem all_disabled_of_available_empty {pm : ProxyManager}
    (h : pm.get_available_proxies.isEmpty = true) :
    ∀ x ∈ pm.proxies, pm.disabled_proxies.contains x = true := by
  intro x hx
  cases hc : pm.disabled_proxies.contains x
  · have hmem : x ∈ pm.get_available_proxies := mem_available_iff.2 ⟨hx, hc⟩
    rw [List.isEmpty_iff.1 h] at hmem
    exact absurd hmem (List.not_mem_nil x)
  · rfl

theorem get_proxy_for_key_same (pm : ProxyManager) (hashFn : String → Nat)
    (uh : Bool) (pick : List String → String) (k : String) :
    (pm.get_proxy_for_key hashFn uh pick k).2.proxies = pm.proxies ∧
    (pm.get_proxy_for_key hashFn uh pick k).2.disabled_proxies = pm.disabled_proxies := by
  unfold ProxyManager.get_proxy_for_key
  split
  · exact ⟨rfl, rfl⟩
  · dsimp only
    split
    · exact ⟨rfl, rfl⟩
    · split
      · split
        · split
          · exact ⟨rfl, rfl⟩
          · exact ⟨rfl, rfl⟩
        · exact ⟨rfl, rfl⟩
      · exact ⟨rfl, rfl⟩

theorem get_proxy_for_key_bound (pm : ProxyManager) (hashFn : String → Nat)
    (pick : List String → String) (k p : String)
    (hb : lookupVal? pm.key_proxy_bindings k = some p)
    (hmem : p ∈ pm.proxies) (hd : pm.disabled_proxies.contains p = false) :
    pm.get_proxy_for_key hashFn true pick k = (some p, pm) := by
  have hpav : p ∈ pm.get_available_proxies := mem_available_iff.2 ⟨hmem, hd⟩
  have h1 : pm.proxies.isEmpty = false :=
    List.isEmpty_eq_false.2 (List.ne_nil_of_mem hmem)
  have h2 : pm.get_available_proxies.isEmpty = false :=
    List.isEmpty_eq_false.2 (List.ne_nil_of_mem hpav)
  simp only [ProxyManager.get_proxy_for_key, h1, Bool.false_eq_true, if_false, h2, hb,
    strContains_iff_mem.2 hpav, if_true]

theorem get_proxy_for_key_records (pm : ProxyManager) (hashFn : String → Nat)
    (pick : List String → String) (k : String)
    (hne : pm.proxies.isEmpty = false)
    (hav : pm.get_available_proxies.isEmpty = false) :
    ∃ q, (pm.get_proxy_for_key hashFn true pick k).1 = some q ∧
      q ∈ pm.get_available_proxies ∧
      lookupVal? (pm.get_proxy_for_key hashFn true pick k).2.key_proxy_bindings k = some q := by
  have havne : pm.get_available_proxies ≠ [] := List.isEmpty_eq_false.1 hav
  simp only [ProxyManager.get_proxy_for_key, hne, Bool.false_eq_true, if_false, hav, if_true]
  cases hb : lookupVal? pm.key_proxy_bindings k with
  | none =>
    refine ⟨pm.get_available_proxies.getD (hashFn k % pm.get_available_proxies.length) "",
      rfl, getD_mem_of_nonempty havne _, ?_⟩
    exact lookupVal?_setBinding_self pm.key_proxy_bindings k _
  | some bound =>
    cases hcb : pm.get_available_proxies.contains bound with
    | true =>
      simp only [hcb, if_true]
      exact ⟨bound, rfl, strContains_iff_mem.1 hcb, hb⟩
    | false =>
      simp only [hcb, Bool.false_eq_true, if_false]
      refine ⟨pm.get_available_proxies.getD (hashFn k % pm.get_available_proxies.length) "",
        rfl, getD_mem_of_nonempty havne _, ?_⟩
      exact lookupVal?_setBinding_self (eraseBinding pm.key_proxy_bindings k) k _

/-! ### Streaming lemmas -/

theorem streamLoop_yield_join (c s : Nat) :
    ∀ (attempts : List AttemptResult) (km : KeyManager) (key : String) (r : Nat),
    (streamLoop c s attempts km key r).yielded =
      ((attempts.take (streamLoop c s attempts km key r).attemptsUsed).map attemptYield).flatten
  | [], km, key, r => by simp [streamLoop]
  | a :: rest, km, key, r => by
    unfold streamLoop
    split
    · cases a with
      | success lines => simp [attemptYield]
      | httpError code msg =>
        dsimp only
        split
        · simp [attemptYield]
        · split
          · simp [attemptYield]
          · have ih := streamLoop_yield_join c s rest
              (km.handle_api_failure key (r + 1) s).2
              (if (km.handle_api_failure key (r + 1) s).1 ≠ key
                then (km.handle_api_failure key (r + 1) s).1 else key)
              (r + 1)
            simp only [List.take_succ_cons, List.map_cons, List.flatten_cons]
            rw [ih]
            simp [attemptYield]
      | streamError lines code msg =>
        dsimp only
        split
        · simp [List.take_succ_cons]
        · split
          · simp [List.take_succ_cons]
          · have ih := streamLoop_yield_join c s rest
              (km.handle_api_failure key (r + 1) s).2
              (if (km.handle_api_failure key (r + 1) s).1 ≠ key
                then (km.handle_api_failure key (r + 1) s).1 else key)
              (r + 1)
            simp only [List.take_succ_cons, List.map_cons, List.flatten_cons]
            rw [ih]
    · simp

/-! ## Claims -/

/-- Claim C2, counterexample: the claim says `handle_api_failure` caps the
failure count at `max_failures`, so `fail_count ≤ max_failures` always holds.
In the source the `except`-guarded increment `key_failure_counts[api_key] += 1`
has no cap: with a single key and `MAX_FAILURES = 1`, two `handle_api_failure`
calls drive the count to 2, strictly above the threshold. -/
theorem fail_count_exceeds_max_failures :
    (((KeyManager.init ["k"] 1).handle_api_failure "k" 5 0).2.handle_api_failure
        "k" 5 0).2.get_fail_count "k" = 2 ∧
    (((KeyManager.init ["k"] 1).handle_api_failure "k" 5 0).2.handle_api_failure
        "k" 5 0).2.MAX_FAILURES = 1 := by
  decide

/-- Claim C2, amended: `handle_api_failure` increments the failure count of a
key present in the pool by exactly one, with no cap (so the count can pass
`max_failures`); the lower bound 0 holds trivially of the natural-number
counts; and the scheduler's `check_failed_keys` increment, which the source
does guard with `< MAX_FAILURES`, preserves `fail_count ≤ max_failures`. -/
theorem handle_api_failure_uncapped_and_scheduler_capped (km : KeyManager)
    (key : String) (r s : Nat)
    (h : containsKey km.key_failure_counts key = true) :
    (km.handle_api_failure key r s).2.get_fail_count key = km.get_fail_count key + 1 ∧
    (km.get_fail_count key ≤ km.MAX_FAILURES →
      (checkFailedKeysIncrement km key).get_fail_count key ≤ km.MAX_FAILURES) := by
  refine ⟨handle_api_failure_count_self km key r s h, ?_⟩
  intro hle
  unfold checkFailedKeysIncrement
  split
  · rename_i hcond
    unfold KeyManager.get_fail_count
    show lookupD (incCount km.key_failure_counts key) key 0 ≤ km.MAX_FAILURES
    rw [lookupD_incCount_self _ _ hcond.1]
    exact hcond.2
  · exact hle

theorem handle_api_failure_uncapped_witness :
    ((KeyManager.init ["a"] 3).handle_api_failure "a" 0 0).2.get_fail_count "a"
      = (KeyManager.init ["a"] 3).get_fail_count "a" + 1 :=
  (handle_api_failure_uncapped_and_scheduler_capped
    (KeyManager.init ["a"] 3) "a" 0 0 (by decide)).1

/-- Claim C3: the claim (and the source's own docstring, "返回第一个 key 作为
fallback") says that on a fully-invalid pool `get_next_working_key` returns
the first key in config order.  The source instead returns the key at the
round-robin cursor: in `kmAllInvalid` both keys of `["k1", "k2"]` are
invalid, the first key is `"k1"`, but because the cursor has advanced by one
the call returns `"k2"`.  This theorem evaluates the code at that failing
input. -/
theorem get_next_working_key_all_invalid_returns_cursor_key :
    (∀ k ∈ kmAllInvalid.api_keys, kmAllInvalid.is_key_valid k = false) ∧
    kmAllInvalid.api_keys.head? = some "k1" ∧
    kmAllInvalid.get_next_working_key.1 = "k2" := by
  decide

/-- Claim C4, counterexample: the claim says `record_failure` returns true
exactly when the call causes the enabled-to-disabled transition, hence
exactly once per threshold crossing.  In the source the function returns
`current_count >= MAX_FAILURES` on every call: with one proxy and
`MAX_FAILURES = 1` the first call disables the proxy and returns true, and a
second call on the already-disabled proxy returns true again. -/
theorem record_proxy_failure_true_after_disable :
    ((ProxyManager.init ["p"] 1).record_proxy_failure "p").1 = true ∧
    ((ProxyManager.init ["p"] 1).record_proxy_failure "p").2.disabled_proxies.contains "p"
      = true ∧
    (((ProxyManager.init ["p"] 1).record_proxy_failure "p").2.record_proxy_failure "p").1
      = true := by
  decide

/-- Claim C4, amended: for a known non-empty proxy, `record_failure`
increments the failure counter by one; its result is true exactly when the
incremented count is at or above `max_failures` (so true on every call at or
above the threshold, not only on the crossing call); and whenever it returns
true the proxy is in the disabled set and no key binding points to it. -/
theorem record_proxy_failure_threshold_behaviour (pm : ProxyManager) (proxy : String)
    (h1 : proxy ≠ "") (h2 : containsKey pm.proxy_failure_counts proxy = true) :
    lookupD (pm.record_proxy_failure proxy).2.proxy_failure_counts proxy 0
        = lookupD pm.proxy_failure_counts proxy 0 + 1 ∧
    ((pm.record_proxy_failure proxy).1 = true ↔
        pm.MAX_FAILURES ≤ lookupD pm.proxy_failure_counts proxy 0 + 1) ∧
    ((pm.record_proxy_failure proxy).1 = true →
        (pm.record_proxy_failure proxy).2.disabled_proxies.contains proxy = true ∧
        ∀ b ∈ (pm.record_proxy_failure proxy).2.key_proxy_bindings, b.2 ≠ proxy) := by
  have hguard : ¬ (proxy = "" ∨ ¬ containsKey pm.proxy_failure_counts proxy = true) := by
    rintro (hc | hc)
    · exact h1 hc
    · exact hc h2
  unfold ProxyManager.record_proxy_failure
  rw [if_neg hguard]
  dsimp only
  rw [lookupD_incCount_self _ _ h2]
  split
  · rename_i hth
    refine ⟨lookupD_incCount_self _ _ h2, ⟨fun _ => hth, fun _ => rfl⟩, fun _ => ⟨?_, ?_⟩⟩
    · exact strContains_iff_mem.2 (by
        unfold setInsert
        split
        · exact strContains_iff_mem.1 (by assumption)
        · exact List.mem_append.2 (Or.inr (List.mem_singleton.2 rfl)))
    · intro b hb
      have := List.mem_filter.1 hb
      simpa using this.2
  · rename_i hth
    exact ⟨lookupD_incCount_self _ _ h2,
      ⟨fun hc => absurd hc (by simp), fun hc => absurd hc hth⟩,
      fun hc => absurd hc (by simp)⟩

theorem record_proxy_failure_threshold_witness :
    lookupD ((ProxyManager.init ["p1", "p2"] 2).record_proxy_failure "p1").2.proxy_failure_counts
        "p1" 0
      = lookupD (ProxyManager.init ["p1", "p2"] 2).proxy_failure_counts "p1" 0 + 1 :=
  (record_proxy_failure_threshold_behaviour (ProxyManager.init ["p1", "p2"] 2) "p1"
    (by decide) (by decide)).1

/-- Claim C6, counterexample: the claim says that a first chunk not starting
with `data:` makes the handler pass the object through as a non-stream
response.  In both routers the `if ... startswith("data:")` branch has no
`else`: the function falls off its end and returns `None`, producing no
response body at all, rather than passing the chunk through. -/
theorem stream_first_chunk_without_data_returns_none :
    routeStreamResponse [": ping"] none = RouterResponse.emptyBody ∧
    routeStreamResponse [": ping"] none ≠ RouterResponse.passthrough ": ping" := by
  decide

/-- Claim C6, amended: the common stream handler classifies the stream by its
first produced chunk: an exception on the first pull yields a JSON error body
with the raised status code; a first chunk starting with `data:` yields a
`text/event-stream` response whose body is the first chunk followed by the
remaining chunks; any other first chunk makes the handler fall through and
return no response body (`None`). -/
theorem route_stream_classification (code : Nat) (msg first : String)
    (rest : List String) (e : Option (Nat × String)) :
    routeStreamResponse [] (some (code, msg)) = RouterResponse.jsonError code msg ∧
    (strStartsWith first "data:" = true →
      routeStreamResponse (first :: rest) e = RouterResponse.streamResponse (first :: rest)) ∧
    (strStartsWith first "data:" = false →
      routeStreamResponse (first :: rest) e = RouterResponse.emptyBody) := by
  refine ⟨rfl, ?_, ?_⟩ <;> intro h <;> simp [routeStreamResponse, h]

theorem route_stream_classification_witness :
    routeStreamResponse ["data: hi", "data: [DONE]"] none
      = RouterResponse.streamResponse ["data: hi", "data: [DONE]"] :=
  (route_stream_classification 500 "x" "data: hi" ["data: [DONE]"] none).2.1 (by decide)

/-- Claim C7, counterexample: the claim says that with `max_retries = 0` one
upstream attempt is issued and its error is propagated.  The source loop is
`while retries < max_retries`, so with `max_retries = 0` the body never runs:
no attempt is issued and no error is raised, even when the scripted first
attempt would have failed with a 500. -/
theorem stream_zero_retries_makes_no_attempt :
    (handle_stream_completion 0 2 "k1" (KeyManager.init ["k1", "k2"] 3)
        [AttemptResult.httpError 500 "boom"]).attemptsUsed = 0 ∧
    (handle_stream_completion 0 2 "k1" (KeyManager.init ["k1", "k2"] 3)
        [AttemptResult.httpError 500 "boom"]).error = none := by
  decide

/-- Claim C7, amended: a streaming call with `config.max_retries = 0` issues
no upstream attempt at all: the generator yields nothing, raises nothing, and
leaves the key manager untouched. -/
theorem stream_zero_max_retries_empty_run (s : Nat) (key : String) (km : KeyManager)
    (attempts : List AttemptResult) :
    handle_stream_completion 0 s key km attempts =
      { yielded := [], error := none, km := km, attemptsUsed := 0 } := by
  cases attempts <;> simp [handle_stream_completion, streamLoop]

/-- Claim C1, counterexample: the claim says that once the first SSE line has
been yielded no line from a second upstream attempt is ever yielded.  In the
source the `except Exception` block also catches exceptions raised by
`aiter_lines` after lines were already yielded, and retries: with two keys,
`max_retries = 2` and a script in which attempt 1 streams `data: a` and then
faults while attempt 2 streams `data: b`, the consumer receives
`["data: a\n", "data: b\n"]` — lines from two different attempts — and no
error. -/
theorem stream_midstream_retry_yields_two_attempts :
    (handle_stream_completion 2 2 "k1" (KeyManager.init ["k1", "k2"] 3)
        [AttemptResult.streamError ["data: a"] 500 "boom",
         AttemptResult.success ["data: b"]]).yielded = ["data: a\n", "data: b\n"] ∧
    (handle_stream_completion 2 2 "k1" (KeyManager.init ["k1", "k2"] 3)
        [AttemptResult.streamError ["data: a"] 500 "boom",
         AttemptResult.success ["data: b"]]).attemptsUsed = 2 ∧
    (handle_stream_completion 2 2 "k1" (KeyManager.init ["k1", "k2"] 3)
        [AttemptResult.streamError ["data: a"] 500 "boom",
         AttemptResult.success ["data: b"]]).error = none := by
  decide

/-- Claim C1, amended: the streaming handler retries after an exception even
when lines have already been yielded (provided retry budget remains and
`handle_api_failure` returns a key), so the delivered line sequence is not a
prefix of a single attempt: it is the concatenation, over the upstream
attempts actually consumed and in order, of each attempt's non-empty lines
with a newline appended. -/
theorem stream_yielded_is_concat_of_consumed_attempts
    (config_max_retries settings_max_retries : Nat) (api_key : String)
    (km : KeyManager) (attempts : List AttemptResult) :
    (handle_stream_completion config_max_retries settings_max_retries
        api_key km attempts).yielded =
      ((attempts.take (handle_stream_completion config_max_retries settings_max_retries
          api_key km attempts).attemptsUsed).map attemptYield).flatten :=
  streamLoop_yield_join config_max_retries settings_max_retries attempts km api_key 0

/-- Claim C5: across a provider reload, a key present in both the old and the
new key list of the provider keeps its failure count; a key only in the new
list starts at zero; and the rebuilt manager holds no entry for a key that
was dropped from the config (its count is discarded). -/
theorem reload_preserves_surviving_key_fail_counts
    (old_counts : List (String × Nat)) (new_api_keys : List String)
    (max_failures : Nat) (k : String) :
    (k ∈ new_api_keys → containsKey old_counts k = true →
      (reloadProviderManager old_counts new_api_keys max_failures).get_fail_count k
        = lookupD old_counts k 0) ∧
    (k ∈ new_api_keys → containsKey old_counts k = false →
      (reloadProviderManager old_counts new_api_keys max_failures).get_fail_count k = 0) ∧
    (k ∉ new_api_keys →
      containsKey
        (reloadProviderManager old_counts new_api_keys max_failures).key_failure_counts k
        = false) := by
  refine ⟨?_, ?_, ?_⟩
  · intro hmem hold
    unfold reloadProviderManager KeyManager.init KeyManager.get_fail_count
    dsimp only
    exact lookupD_restoreCountsFold_mem new_api_keys old_counts _ k hmem hold
      ((containsKey_map_zero _ _).2 (List.mem_dedup.2 hmem))
  · intro hmem hold
    unfold reloadProviderManager KeyManager.init KeyManager.get_fail_count
    dsimp only
    rw [lookupD_restoreCountsFold_not_in_old new_api_keys old_counts _ k hold]
    exact lookupD_map_zero _ k
  · intro hmem
    unfold reloadProviderManager KeyManager.init
    dsimp only
    rw [containsKey_restoreCountsFold new_api_keys old_counts _ k]
    cases hc : containsKey (new_api_keys.dedup.map (fun k => (k, 0))) k
    · rfl
    · exact absurd (List.mem_dedup.1 ((containsKey_map_zero _ _).1 hc)) hmem

theorem reload_preserves_surviving_key_fail_counts_witness :
    (reloadProviderManager [("k1", 2), ("k2", 1)] ["k1", "k3"] 3).get_fail_count "k1"
      = lookupD [("k1", 2), ("k2", 1)] "k1" 0 :=
  (reload_preserves_surviving_key_fail_counts [("k1", 2), ("k2", 1)] ["k1", "k3"] 3 "k1").1
    (by decide) (by decide)

/-- Claim C8: in consistency-hash mode, once `get_proxy_for_key` has returned
a proxy for a key, an immediately repeated call returns the same proxy and
leaves the manager unchanged, as long as that proxy is not disabled in the
resulting state: the first call either honoured or recorded the binding, and
the second call finds the bound proxy still available and honours it.  Only
after the proxy is disabled (which also removes the binding) can a later call
compute and record a new binding. -/
theorem consistency_hash_repeated_call_stable (pm : ProxyManager)
    (hashFn : String → Nat) (pick : List String → String) (api_key p : String)
    (h1 : (pm.get_proxy_for_key hashFn true pick api_key).1 = some p)
    (h2 : (pm.get_proxy_for_key hashFn true pick api_key).2.disabled_proxies.contains p
      = false) :
    (pm.get_proxy_for_key hashFn true pick api_key).2.get_proxy_for_key hashFn true pick
        api_key
      = (some p, (pm.get_proxy_for_key hashFn true pick api_key).2) := by
  have hsame := get_proxy_for_key_same pm hashFn true pick api_key
  by_cases hps : pm.proxies.isEmpty = true
  · exfalso
    unfold ProxyManager.get_proxy_for_key at h1
    rw [if_pos hps] at h1
    exact Option.noConfusion h1
  · have hps' : pm.proxies.isEmpty = false := Bool.not_eq_true _ ▸ hps
    by_cases hav : pm.get_available_proxies.isEmpty = true
    · exfalso
      have hall := all_disabled_of_available_empty hav
      simp only [ProxyManager.get_proxy_for_key, hps', Bool.false_eq_true, if_false,
        hav, if_true] at h1 h2
      have hp_mem : p ∈ pm.proxies := by
        cases hl : pm.proxies with
        | nil =>
          rw [hl] at h1
          exact Option.noConfusion h1
        | cons a t =>
          rw [hl] at h1
          have ha : a = p := Option.some.inj h1
          exact List.mem_cons.2 (Or.inl ha.symm)
      rw [hall p hp_mem] at h2
      exact Bool.noConfusion h2
    · have hav' : pm.get_available_proxies.isEmpty = false := Bool.not_eq_true _ ▸ hav
      obtain ⟨q, hq1, hq2, hq3⟩ :=
        get_proxy_for_key_records pm hashFn pick api_key hps' hav'
      have hqp : p = q := by
        rw [h1] at hq1
        exact Option.some.inj hq1
      subst hqp
      have hmem1 : p ∈ (pm.get_proxy_for_key hashFn true pick api_key).2.proxies := by
        rw [hsame.1]
        exact (mem_available_iff.1 hq2).1
      exact get_proxy_for_key_bound _ hashFn pick api_key p hq3 hmem1 h2

theorem consistency_hash_repeated_call_stable_witness :
    (pmTwo.get_proxy_for_key hashLen true pickHead "abc").2.get_proxy_for_key hashLen true
        pickHead "abc"
      = (some "p2", (pmTwo.get_proxy_for_key hashLen true pickHead "abc").2) :=
  consistency_hash_repeated_call_stable pmTwo hashLen pickHead "abc" "p2"
    (by decide) (by decide)

/-- Claim C9: every `ProxyManager` operation preserves the invariant that no
key binding points to a disabled proxy: operations that disable a proxy
(`record_proxy_failure` at the threshold, `disable_proxy`) delete every
binding whose value is that proxy in the same step; operations that write a
binding (`get_proxy_for_key` in hash mode) only bind proxies drawn from the
available (non-disabled) list; all other operations shrink the disabled set
or the bindings map. -/
theorem proxy_step_preserves_no_binding_to_disabled (pm pm' : ProxyManager)
    (hinv : BindingsAvoidDisabled pm) (hstep : PMStep pm pm') :
    BindingsAvoidDisabled pm' := by
  cases hstep with
  | reload new_proxies =>
    intro x hx b hb
    unfold ProxyManager.reload_proxies at hx hb
    dsimp only at hx hb
    exact hinv x (List.mem_filter.1 hx).1 b (List.mem_filter.1 hb).1
  | getProxyForKey hashFn use_hash pick api_key =>
    unfold ProxyManager.get_proxy_for_key
    split
    · exact hinv
    · dsimp only
      split
      · exact hinv
      · rename_i hav
        have havne : pm.get_available_proxies ≠ [] := by
          intro hc
          exact hav (by rw [hc]; rfl)
        split
        · split
          · split
            · exact hinv
            · intro x hx b hb
              dsimp only at hx hb
              rcases mem_setBinding hb with hb1 | hb1
              · exact hinv x hx b (List.mem_filter.1 hb1).1
              · have hq := getD_mem_of_nonempty havne (hashFn api_key)
                have hnd := (mem_available_iff.1 hq).2
                intro hbx
                rw [← hb1, hbx, strContains_iff_mem.2 hx] at hnd
                exact Bool.noConfusion hnd
          · intro x hx b hb
            dsimp only at hx hb
            rcases mem_setBinding hb with hb1 | hb1
            · exact hinv x hx b hb1
            · have hq := getD_mem_of_nonempty havne (hashFn api_key)
              have hnd := (mem_available_iff.1 hq).2
              intro hbx
              rw [← hb1, hbx, strContains_iff_mem.2 hx] at hnd
              exact Bool.noConfusion hnd
        · exact hinv
  | recordFailure proxy =>
    unfold ProxyManager.record_proxy_failure
    split
    · exact hinv
    · dsimp only
      split
      · intro x hx b hb
        dsimp only at hx hb
        have hbm := List.mem_filter.1 hb
        have hb2 : b.2 ≠ proxy := by simpa using hbm.2
        rcases mem_setInsert hx with hx1 | hx1
        · exact hinv x hx1 b hbm.1
        · rw [hx1]
          exact hb2
      · exact hinv
  | recordSuccess proxy =>
    unfold ProxyManager.record_proxy_success
    split
    · exact hinv
    · split
      · exact hinv
      · exact hinv
  | resetProxy proxy =>
    intro x hx b hb
    unfold ProxyManager.reset_proxy at hx hb
    dsimp only at hx hb
    exact hinv x (List.mem_filter.1 hx).1 b hb
  | resetAll =>
    intro x hx
    unfold ProxyManager.reset_all_proxies at hx
    dsimp only at hx
    exact absurd hx (List.not_mem_nil x)
  | disable proxy =>
    unfold ProxyManager.disable_proxy
    split
    · intro x hx b hb
      dsimp only at hx hb
      have hbm := List.mem_filter.1 hb
      have hb2 : b.2 ≠ proxy := by simpa using hbm.2
      rcases mem_setInsert hx with hx1 | hx1
      · exact hinv x hx1 b hbm.1
      · rw [hx1]
        exact hb2
    · exact hinv
  | enable proxy =>
    unfold ProxyManager.enable_proxy
    split
    · intro x hx b hb
      dsimp only at hx hb
      exact hinv x (List.mem_filter.1 hx).1 b hb
    · exact hinv
  | updateLastCheck proxy now =>
    exact hinv
  | unbindKey api_key =>
    intro x hx b hb
    unfold ProxyManager.unbind_key_from_proxy eraseBinding at hx hb
    dsimp only at hx hb
    exact hinv x hx b (List.mem_filter.1 hb).1

theorem proxy_step_preserves_no_binding_to_disabled_witness :
    BindingsAvoidDisabled ((ProxyManager.init ["p1"] 1).record_proxy_failure "p1").2 :=
  proxy_step_preserves_no_binding_to_disabled (ProxyManager.init ["p1"] 1) _
    (by decide) (PMStep.recordFailure (ProxyManager.init ["p1"] 1) "p1")

/-- Claim C10: for a non-empty pool, `get_first_valid_key` returns a member
of the pool (hence never the empty string when no configured key is the
empty string): the first key in config order whose count is below the
threshold when one exists, and the first key of the pool as fallback when
every key is invalid; and the `get_models` key selection uses exactly this
value when neither an explicit key nor a `model_request_key` is configured. -/
theorem get_first_valid_key_spec (km : KeyManager) (hne : km.api_keys ≠ []) :
    km.get_first_valid_key ∈ km.api_keys ∧
    ("" ∉ km.api_keys → km.get_first_valid_key ≠ "") ∧
    ((∃ k ∈ km.api_keys, km.is_key_valid k = true) →
      km.is_key_valid km.get_first_valid_key = true ∧
      ∃ pre post, km.api_keys = pre ++ km.get_first_valid_key :: post ∧
        ∀ k' ∈ pre, km.is_key_valid k' = false) ∧
    ((∀ k ∈ km.api_keys, km.is_key_valid k = false) →
      km.api_keys.head? = some km.get_first_valid_key) ∧
    getModelsKey "" "" km = km.get_first_valid_key := by
  have hmodels : getModelsKey "" "" km = km.get_first_valid_key := by
    simp [getModelsKey]
  cases hf : km.api_keys.find?
      (fun key => lookupD km.key_failure_counts key 0 < km.MAX_FAILURES) with
  | some key =>
    have hkey : km.get_first_valid_key = key := by
      unfold KeyManager.get_first_valid_key
      rw [hf]
    obtain ⟨hp, pre, post, hsplit, hpre⟩ := List.find?_eq_some.1 hf
    have hmem : key ∈ km.api_keys := List.mem_of_find?_eq_some hf
    have hvalid : km.is_key_valid key = true := hp
    rw [hkey]
    refine ⟨hmem, fun hno hk => hno (hk ▸ hmem), ?_, ?_, hmodels.trans hkey⟩
    · intro _
      refine ⟨hvalid, pre, post, hsplit, fun k' hk' => ?_⟩
      have hx : km.MAX_FAILURES ≤ lookupD km.key_failure_counts k' 0 := by
        simpa using hpre k' hk'
      unfold KeyManager.is_key_valid
      simpa using hx
    · intro hall
      have hfalse := hall key hmem
      rw [hfalse] at hvalid
      exact Bool.noConfusion hvalid
  | none =>
    have hallinv := List.find?_eq_none.1 hf
    obtain ⟨a, t, hl⟩ := List.exists_cons_of_ne_nil hne
    have hkey : km.get_first_valid_key = a := by
      unfold KeyManager.get_first_valid_key
      rw [hf, hl]
    rw [hkey]
    refine ⟨?_, ?_, ?_, ?_, hmodels.trans hkey⟩
    · rw [hl]
      exact List.mem_cons_self a t
    · intro hno hk
      exact hno (hl.symm ▸ List.mem_cons.2 (Or.inl hk.symm))
    · rintro ⟨k, hk, hkv⟩
      exact absurd hkv (hallinv k hk)
    · intro _
      rw [hl]
      rfl

theorem get_first_valid_key_spec_witness :
    (KeyManager.init ["a", "b"] 1).get_first_valid_key
      ∈ (KeyManager.init ["a", "b"] 1).api_keys :=
  (get_first_valid_key_spec (KeyManager.init ["a", "b"] 1) (by decide)).1
